import Mathlib

set_option maxHeartbeats 1000000

/-!
Shallow embedding of `src/ecidata.py`, the ECI constituency-results
scraper.  Python byte/str values are modelled as `List Char`; Python's
built-in exceptions (and `xml.etree.ElementTree.ParseError`) as `PyErr`;
fallible code returns `Except PyErr _`.  Network retrieval is out of
scope (the core consumes a list of raw lines, per the design's fetch
collaborator), so the entry point takes the fetched line sequence.
-/

abbrev PyStr := List Char

/-- ASCII whitespace, as stripped by Python's `bytes.strip()`. -/
def is_py_space (c : Char) : Bool :=
  c = ' ' || c = '\t' || c = '\n' || c = '\r' || c = '\x0b' || c = '\x0c'

/-- Model of Python `s.strip()` (ASCII whitespace). -/
def pyStrip (s : PyStr) : PyStr :=
  ((s.dropWhile is_py_space).reverse.dropWhile is_py_space).reverse

/-- Fuelled worker for Python `s.split(sep)`, non-overlapping
left-to-right splitting on a non-empty separator. -/
def split_aux (sep : PyStr) : Nat → PyStr → List PyStr
  | 0, s => [s]
  | _ + 1, [] => [[]]
  | n + 1, c :: rest =>
    if sep.isPrefixOf (c :: rest) then
      [] :: split_aux sep n ((c :: rest).drop sep.length)
    else
      match split_aux sep n rest with
      | [] => [[c]]
      | p :: ps => (c :: p) :: ps

/-- Model of Python `s.split(sep)` for a non-empty `sep`. -/
def pySplit (s sep : PyStr) : List PyStr :=
  split_aux sep (s.length + 1) s

/-- Model of Python `sep.join(parts)`. -/
def pyJoin (sep : PyStr) : List PyStr → PyStr
  | [] => []
  | [x] => x
  | x :: y :: rest => x ++ sep ++ pyJoin sep (y :: rest)

/-- Model of Python `needle in hay` (contiguous substring containment). -/
def containsSub (needle : PyStr) : PyStr → Bool
  | [] => needle.isEmpty
  | c :: rest => needle.isPrefixOf (c :: rest) || containsSub needle rest

/-- First-occurrence splitter, used only to state properties:
`splitFirst sep s = some (a, b)` when `s = a ++ sep ++ b` with the
occurrence of `sep` at the earliest position, `none` when `sep` does
not occur in `s`. -/
def splitFirst (sep : PyStr) : PyStr → Option (PyStr × PyStr)
  | [] => none
  | c :: rest =>
    if sep.isPrefixOf (c :: rest) then some ([], (c :: rest).drop sep.length)
    else
      match splitFirst sep rest with
      | some (a, b) => some (c :: a, b)
      | none => none

/-- Valid tail of a Python base-10 integer literal after its first digit:
digits with single `_` separators allowed between digits. -/
def und_tail_ok : List Char → Bool
  | [] => true
  | '_' :: rest =>
    (match rest with
     | d :: _ => d.isDigit
     | [] => false) && und_tail_ok rest
  | c :: rest => c.isDigit && und_tail_ok rest

/-- Non-empty base-10 digit run with `_` group separators
(the body of a Python integer literal). -/
def und_valid : List Char → Bool
  | [] => false
  | c :: rest => c.isDigit && und_tail_ok rest

/-- Numeric value of a digit run, ignoring `_`. -/
def digitsToNat (s : List Char) : Nat :=
  s.foldl (fun a c => if c = '_' then a else 10 * a + (c.toNat - 48)) 0

/-- Model of Python `int(s)` on ASCII text: surrounding whitespace is
stripped, an optional sign is allowed, then base-10 digits with `_`
separators; `none` models the `ValueError` raised otherwise.  Note that
negative literals are accepted, exactly as Python's `int` accepts them. -/
def pyInt (s : PyStr) : Option Int :=
  match pyStrip s with
  | '+' :: rest => if und_valid rest then some ((digitsToNat rest : Int)) else none
  | '-' :: rest => if und_valid rest then some (-(digitsToNat rest : Int)) else none
  | t => if und_valid t then some ((digitsToNat t : Int)) else none

/-- The marker substring the line locator scans for. -/
def marker_str : PyStr := ("<div id=\"div1\"".data)

/-- The `" - "` separator of the combined state/constituency label. -/
def sep_str : PyStr := (" - ".data)

/-- The substring whose presence in the status cell marks a declared result. -/
def declared_str : PyStr := ("Result Declared".data)

/-- Python exception kinds this code can raise: the untyped built-ins
(`AssertionError`, `IndexError`, `AttributeError`, `TypeError`,
`ValueError`) plus `xml.etree.ElementTree.ParseError`. -/
inductive PyErr where
  | assertionError
  | indexError
  | attributeError
  | typeError
  | valueError
  | parseError
deriving DecidableEq, Repr

/-- Model of `xml.etree.ElementTree.Element`: tag name, attributes,
child elements, and the text between the start tag and the first child
(`none` when that text is empty, as in ElementTree). -/
inductive Element where
  | mk (tag : PyStr) (attrs : List (PyStr × PyStr)) (children : List Element)
      (text : Option PyStr)

deriving instance DecidableEq for Except

def Element.tag : Element → PyStr
  | .mk t _ _ _ => t

def Element.attrs : Element → List (PyStr × PyStr)
  | .mk _ a _ _ => a

/-- `elem.getchildren()` in the source. -/
def Element.children : Element → List Element
  | .mk _ _ c _ => c

def Element.text : Element → Option PyStr
  | .mk _ _ _ t => t

/-- `candidate_votes` data class of the source: votes received by one
candidate.  `votes` is `Int` because Python's `int()` can produce
negative values. -/
structure candidate_votes where
  candidate : PyStr
  party : PyStr
  votes : Int
deriving DecidableEq, Repr

/-- `constituency_results` data class of the source. -/
structure constituency_results where
  state : PyStr
  constituency : PyStr
  all_candidate_votes : List candidate_votes
  declared : Bool
deriving DecidableEq, Repr

/-- The `vote_count` property of `constituency_results`: computed on
demand as the sum of the contained votes, never stored. -/
def constituency_results.vote_count (r : constituency_results) : Int :=
  (r.all_candidate_votes.map candidate_votes.votes).sum

/-- Python positional indexing `l[i]`; out of range raises `IndexError`. -/
def pyIndexE : List α → Nat → Except PyErr α
  | [], _ => .error .indexError
  | x :: _, 0 => .ok x
  | _ :: xs, n + 1 => pyIndexE xs n

/-- The comprehension `[c.text.strip() for c in row.getchildren()]`:
strips every cell's text, raising `AttributeError` (`None.strip()`)
if any cell has no text. -/
def strip_cell_texts : List Element → Except PyErr (List PyStr)
  | [] => .ok []
  | c :: rest =>
    match c.text with
    | none => .error .attributeError
    | some t =>
      match strip_cell_texts rest with
      | .error e => .error e
      | .ok ts => .ok (pyStrip t :: ts)

/-- One loop iteration of the row loop:
`candidate_votes(data[0], data[1], int(data[2]))`. -/
def parse_candidate_row (row : Element) : Except PyErr candidate_votes :=
  match strip_cell_texts row.children with
  | .error e => .error e
  | .ok data =>
    match pyIndexE data 0 with
    | .error e => .error e
    | .ok cand =>
      match pyIndexE data 1 with
      | .error e => .error e
      | .ok pty =>
        match pyIndexE data 2 with
        | .error e => .error e
        | .ok vs =>
          match pyInt vs with
          | some v => .ok ⟨cand, pty, v⟩
          | none => .error .valueError

/-- The `for row in result_rows` loop over the candidate rows,
appending one `candidate_votes` per row in source order. -/
def parse_rows : List Element → Except PyErr (List candidate_votes)
  | [] => .ok []
  | row :: rest =>
    match parse_candidate_row row with
    | .error e => .error e
    | .ok cv =>
      match parse_rows rest with
      | .error e => .error e
      | .ok cvs => .ok (cv :: cvs)

/-- Everything `get_constituency_results` does after the two shape
asserts succeed, given the table element. -/
def extract_body (tbl : Element) : Except PyErr constituency_results :=
  let result_rows := tbl.children
  match pyIndexE result_rows 0 with
  | .error e => .error e
  | .ok row0 =>
    match pyIndexE row0.children 0 with
    | .error e => .error e
    | .ok c0 =>
      match c0.text with
      | none => .error .attributeError
      | some combined =>
        match pySplit combined sep_str with
        | [] => .error .valueError
        | s0 :: restp =>
          let state_name := pyStrip s0
          let constituency_name := pyStrip (pyJoin sep_str restp)
          match pyIndexE result_rows 1 with
          | .error e => .error e
          | .ok row1 =>
            match pyIndexE row1.children 0 with
            | .error e => .error e
            | .ok c1 =>
              match c1.text with
              | none => .error .typeError
              | some status =>
                let declared := containsSub declared_str status
                match parse_rows (result_rows.drop 3) with
                | .error e => .error e
                | .ok all_votes =>
                  .ok ⟨state_name, constituency_name, all_votes, declared⟩

/-- The tree-walking part of `get_constituency_results`: the two
`assert` statements (three children, first child a `table`), then the
extraction.  A failed `assert` raises the untyped `AssertionError`. -/
def extract_from_tree (parsed : Element) : Except PyErr constituency_results :=
  if parsed.children.length = 3 then
    match pyIndexE parsed.children 0 with
    | .error e => .error e
    | .ok tbl =>
      if tbl.tag = ("table".data) then extract_body tbl
      else .error .assertionError
  else .error .assertionError

/-- The line-locator loop of `get_constituency_results`: strips each
line, re-arms `next_line_has_results` on any line starting with the
marker, and returns the stripped line captured by the `elif` branch;
returns the initial `results_line = b""` if the loop never captures. -/
def locate_aux : List PyStr → Bool → PyStr
  | [], _ => []
  | l :: rest, next_line_has_results =>
    let s := pyStrip l
    if marker_str.isPrefixOf s then locate_aux rest true
    else if next_line_has_results then s
    else locate_aux rest next_line_has_results

/-- The line locator applied to the fetched line sequence. -/
def locate_results_line (lines : List PyStr) : PyStr :=
  locate_aux lines false

/-- Fuelled worker for Python `s.replace(pat, rep)` (non-empty `pat`):
leftmost non-overlapping replacement of every occurrence. -/
def replace_aux (pat rep : PyStr) : Nat → PyStr → PyStr
  | 0, s => s
  | _ + 1, [] => []
  | n + 1, c :: rest =>
    if pat.isPrefixOf (c :: rest) then
      rep ++ replace_aux pat rep n ((c :: rest).drop pat.length)
    else c :: replace_aux pat rep n rest

/-- Model of Python `s.replace(pat, rep)` for a non-empty `pat`. -/
def pyReplace (s pat rep : PyStr) : PyStr :=
  replace_aux pat rep (s.length + 1) s

/-- The three ordered sanitization substitutions of the source. -/
def sanitize_results_line (s : PyStr) : PyStr :=
  let s1 := pyReplace s ("align=left".data) ("align=\"left\"".data)
  let s2 := pyReplace s1 ("align=right".data) ("align=\"right\"".data)
  pyReplace s2 ("<td></tr>".data) ("</td></tr>".data)

/-- `b'<div>' + results_line + b'</div>'`: wrapping the fragment in a
synthetic top-level container. -/
def wrap_line (s : PyStr) : PyStr :=
  ("<div>".data) ++ s ++ ("</div>".data)

/-- Characters allowed in a tag or attribute name by this model of the
ElementTree parser. -/
def is_name_char (c : Char) : Bool :=
  c.isAlphanum || c = '_' || c = '-' || c = ':' || c = '.'

/-- XML whitespace. -/
def is_xml_space (c : Char) : Bool :=
  c = ' ' || c = '\t' || c = '\n' || c = '\r'

/-- Read a tag or attribute name. -/
def read_name (cs : PyStr) : Option (PyStr × PyStr) :=
  let nm := cs.takeWhile is_name_char
  if nm.isEmpty then none else some (nm, cs.drop nm.length)

/-- Expect one concrete character. -/
def expect_char (c : Char) : PyStr → Option PyStr
  | d :: rest => if d = c then some rest else none
  | [] => none

/-- Read the attribute list of a start tag; strict XML style: every
attribute value must be quoted (unquoted values, as in the raw ECI
markup, make the parse fail — the reason sanitization exists). -/
def read_attrs : Nat → PyStr → Option (List (PyStr × PyStr) × PyStr)
  | 0, _ => none
  | n + 1, cs =>
    let cs1 := cs.dropWhile is_xml_space
    match cs1 with
    | '>' :: _ => some ([], cs1)
    | '/' :: _ => some ([], cs1)
    | _ =>
      match read_name cs1 with
      | none => none
      | some (nm, cs2) =>
        match expect_char '=' cs2 with
        | none => none
        | some cs3 =>
          match cs3 with
          | q :: cs4 =>
            if q = '"' || q = '\'' then
              let v := cs4.takeWhile (fun c => c ≠ q)
              match cs4.drop v.length with
              | _ :: cs5 =>
                match read_attrs n cs5 with
                | some (ats, cs6) => some ((nm, v) :: ats, cs6)
                | none => none
              | [] => none
            else none
          | [] => none

mutual

/-- Models `xml.etree.ElementTree` element parsing on the fragment
grammar this page uses: one element with quoted attributes, child
elements, and text content.  Fuelled recursion; the fuel is in practice
always sufficient (one unit per consumed `<`). -/
def parse_element : Nat → PyStr → Option (Element × PyStr)
  | 0, _ => none
  | n + 1, cs =>
    match expect_char '<' cs with
    | none => none
    | some cs1 =>
      match read_name cs1 with
      | none => none
      | some (nm, cs2) =>
        match read_attrs (cs2.length + 1) cs2 with
        | none => none
        | some (ats, cs3) =>
          match cs3 with
          | '/' :: '>' :: cs4 => some (⟨nm, ats, [], none⟩, cs4)
          | '>' :: cs4 =>
            let txt := cs4.takeWhile (fun c => c ≠ '<')
            let t : Option PyStr := if txt.isEmpty then none else some txt
            match parse_children n nm [] (cs4.drop txt.length) with
            | some (kids, cs5) => some (⟨nm, ats, kids, t⟩, cs5)
            | none => none
          | _ => none

/-- Parse the children of an open element up to its matching close tag,
accumulating children in reverse; tail text after each child is
consumed and discarded (the source never reads `.tail`). -/
def parse_children : Nat → PyStr → List Element → PyStr → Option (List Element × PyStr)
  | 0, _, _, _ => none
  | n + 1, tag, acc, cs =>
    match cs with
    | '<' :: '/' :: cs1 =>
      match read_name cs1 with
      | none => none
      | some (nm, cs2) =>
        if nm = tag then
          match expect_char '>' (cs2.dropWhile is_xml_space) with
          | some cs3 => some (acc.reverse, cs3)
          | none => none
        else none
    | '<' :: _ =>
      match parse_element n cs with
      | none => none
      | some (child, cs1) =>
        let tailtxt := cs1.takeWhile (fun c => c ≠ '<')
        parse_children n tag (child :: acc) (cs1.drop tailtxt.length)
    | _ => none

end

/-- Model of `ET.fromstring`: parse one root element, allow surrounding
whitespace, fail with `ParseError` otherwise. -/
def et_fromstring (s : PyStr) : Except PyErr Element :=
  match parse_element (s.length + 1) (s.dropWhile is_xml_space) with
  | some (e, rest) =>
    if (rest.dropWhile is_xml_space).isEmpty then .ok e else .error .parseError
  | none => .error .parseError

/-- `get_constituency_results`, on the fetched line sequence (network
retrieval is the external fetch collaborator and out of scope): line
locator, sanitization, wrapping, strict parse, tree extraction. -/
def get_constituency_results (lines : List PyStr) : Except PyErr constituency_results :=
  match et_fromstring (wrap_line (sanitize_results_line (locate_results_line lines))) with
  | .error e => .error e
  | .ok parsed => extract_from_tree parsed


/-! ### Basic lemmas about the string helpers -/

theorem split_aux_ne_nil (sep : PyStr) : ∀ (n : Nat) (s : PyStr), split_aux sep n s ≠ [] := by
  intro n
  induction n with
  | zero => intro s; simp [split_aux]
  | succ n ih =>
    intro s
    cases s with
    | nil => simp [split_aux]
    | cons c rest =>
      simp only [split_aux]
      split
      · simp
      · split <;> simp_all

theorem pySplit_ne_nil (s sep : PyStr) : pySplit s sep ≠ [] :=
  split_aux_ne_nil sep _ s

theorem split_aux_fuel_irrel (sep : PyStr) (hsep : sep ≠ []) :
    ∀ (n m : Nat) (s : PyStr), s.length < n → s.length < m →
      split_aux sep n s = split_aux sep m s := by
  have hlen : 0 < sep.length := List.length_pos.mpr hsep
  intro n
  induction n with
  | zero => intro m s h; omega
  | succ n ih =>
    intro m s hn hm
    cases m with
    | zero => omega
    | succ m =>
      cases s with
      | nil => simp [split_aux]
      | cons c rest =>
        simp only [split_aux]
        split
        · have hd : (((c :: rest).drop sep.length)).length < n := by
            simp only [List.length_drop, List.length_cons]
            simp only [List.length_cons] at hn
            omega
          have hd' : (((c :: rest).drop sep.length)).length < m := by
            simp only [List.length_drop, List.length_cons]
            simp only [List.length_cons] at hm
            omega
          rw [ih _ _ hd hd']
        · have hr : rest.length < n := by
            simp only [List.length_cons] at hn; omega
          have hr' : rest.length < m := by
            simp only [List.length_cons] at hm; omega
          rw [ih _ _ hr hr']

theorem split_aux_eq_pySplit (sep : PyStr) (hsep : sep ≠ []) (n : Nat) (s : PyStr)
    (h : s.length < n) : split_aux sep n s = pySplit s sep :=
  split_aux_fuel_irrel sep hsep n (s.length + 1) s h (Nat.lt_succ_self _)

theorem pySplit_cons_sep (sep : PyStr) (hsep : sep ≠ []) (c : Char) (rest : PyStr)
    (h : sep.isPrefixOf (c :: rest)) :
    pySplit (c :: rest) sep = [] :: pySplit ((c :: rest).drop sep.length) sep := by
  have hlen : 0 < sep.length := List.length_pos.mpr hsep
  show split_aux sep (rest.length + 2) (c :: rest) = _
  simp only [split_aux, h, if_pos]
  rw [split_aux_eq_pySplit sep hsep]
  simp only [List.length_drop, List.length_cons]
  omega

theorem pySplit_cons_nosep (sep : PyStr) (hsep : sep ≠ []) (c : Char) (rest : PyStr)
    (h : ¬ sep.isPrefixOf (c :: rest)) :
    pySplit (c :: rest) sep =
      match pySplit rest sep with
      | [] => [[c]]
      | p :: ps => (c :: p) :: ps := by
  show split_aux sep (rest.length + 2) (c :: rest) = _
  simp only [split_aux]
  rw [if_neg h, split_aux_eq_pySplit sep hsep _ rest (by omega)]

theorem isPrefixOf_decomp {sep s : PyStr} (h : sep.isPrefixOf s) :
    s = sep ++ s.drop sep.length := by
  rcases List.isPrefixOf_iff_prefix.mp h with ⟨t, ht⟩
  subst ht
  rw [List.drop_left]

theorem pyJoin_pySplit (sep : PyStr) (hsep : sep ≠ []) :
    ∀ (n : Nat) (s : PyStr), s.length < n → pyJoin sep (pySplit s sep) = s := by
  have hlen : 0 < sep.length := List.length_pos.mpr hsep
  intro n
  induction n with
  | zero => intro s h; omega
  | succ n ih =>
    intro s hn
    cases s with
    | nil => simp [pySplit, split_aux, pyJoin]
    | cons c rest =>
      by_cases h : sep.isPrefixOf (c :: rest)
      · rw [pySplit_cons_sep sep hsep c rest h]
        set t := (c :: rest).drop sep.length with hteq
        have htlen : t.length < n := by
          rw [hteq]
          simp only [List.length_drop, List.length_cons]
          simp only [List.length_cons] at hn
          omega
        have hne := pySplit_ne_nil t sep
        rcases hps : pySplit t sep with _ | ⟨p, ps⟩
        · exact absurd hps hne
        · have hjoin : pyJoin sep (p :: ps) = t := by rw [← hps]; exact ih t htlen
          calc pyJoin sep ([] :: p :: ps) = [] ++ sep ++ pyJoin sep (p :: ps) := rfl
            _ = sep ++ t := by rw [hjoin]; simp
            _ = c :: rest := (isPrefixOf_decomp h).symm
      · rw [pySplit_cons_nosep sep hsep c rest h]
        have hrlen : rest.length < n := by
          simp only [List.length_cons] at hn; omega
        have hne := pySplit_ne_nil rest sep
        rcases hps : pySplit rest sep with _ | ⟨p, ps⟩
        · exact absurd hps hne
        · have hjoin : pyJoin sep (p :: ps) = rest := by rw [← hps]; exact ih rest hrlen
          cases ps with
          | nil =>
            simp only [pyJoin] at hjoin ⊢
            rw [hjoin]
          | cons q qs =>
            simp only [pyJoin] at hjoin ⊢
            rw [List.cons_append, List.cons_append, hjoin]

theorem pyJoin_pySplit' (sep : PyStr) (hsep : sep ≠ []) (s : PyStr) :
    pyJoin sep (pySplit s sep) = s :=
  pyJoin_pySplit sep hsep (s.length + 1) s (Nat.lt_succ_self _)

theorem splitFirst_some_split (sep : PyStr) (hsep : sep ≠ []) :
    ∀ (s a b : PyStr), splitFirst sep s = some (a, b) →
      pySplit s sep = a :: pySplit b sep := by
  intro s
  induction s with
  | nil => intro a b h; simp [splitFirst] at h
  | cons c rest ih =>
    intro a b h
    by_cases hp : sep.isPrefixOf (c :: rest)
    · simp only [splitFirst] at h
      rw [if_pos hp] at h
      simp only [Option.some.injEq, Prod.mk.injEq] at h
      obtain ⟨ha, hb⟩ := h
      subst ha; subst hb
      exact pySplit_cons_sep sep hsep c rest hp
    · simp only [splitFirst] at h
      rw [if_neg hp] at h
      rcases hs : splitFirst sep rest with _ | ⟨a', b'⟩
      · rw [hs] at h; exact absurd h (by simp)
      · rw [hs] at h
        simp only [Option.some.injEq, Prod.mk.injEq] at h
        obtain ⟨ha, hb⟩ := h
        subst ha; subst hb
        rw [pySplit_cons_nosep sep hsep c rest hp, ih a' b' hs]

theorem splitFirst_none_split (sep : PyStr) (hsep : sep ≠ []) :
    ∀ (s : PyStr), splitFirst sep s = none → pySplit s sep = [s] := by
  intro s
  induction s with
  | nil => intro _; rfl
  | cons c rest ih =>
    intro h
    by_cases hp : sep.isPrefixOf (c :: rest)
    · simp [splitFirst, hp] at h
    · simp only [splitFirst, hp, if_neg, not_false_iff] at h
      rcases hs : splitFirst sep rest with _ | ⟨a', b'⟩
      · rw [pySplit_cons_nosep sep hsep c rest hp, ih hs]
      · rw [hs] at h; simp at h

theorem splitFirst_decomp (sep : PyStr) :
    ∀ (s a b : PyStr), splitFirst sep s = some (a, b) → s = a ++ sep ++ b := by
  intro s
  induction s with
  | nil => intro a b h; simp [splitFirst] at h
  | cons c rest ih =>
    intro a b h
    by_cases hp : sep.isPrefixOf (c :: rest)
    · simp only [splitFirst] at h
      rw [if_pos hp] at h
      simp only [Option.some.injEq, Prod.mk.injEq] at h
      obtain ⟨ha, hb⟩ := h
      subst ha; subst hb
      simpa using isPrefixOf_decomp hp
    · simp only [splitFirst] at h
      rw [if_neg hp] at h
      rcases hs : splitFirst sep rest with _ | ⟨a', b'⟩
      · rw [hs] at h; exact absurd h (by simp)
      · rw [hs] at h
        simp only [Option.some.injEq, Prod.mk.injEq] at h
        obtain ⟨ha, hb⟩ := h
        subst ha; subst hb
        have := ih a' b' hs
        simp [this]

theorem containsSub_iff (needle : PyStr) :
    ∀ (hay : PyStr), containsSub needle hay = true ↔ ∃ a b, hay = a ++ needle ++ b := by
  intro hay
  induction hay with
  | nil =>
    simp only [containsSub, List.isEmpty_iff]
    constructor
    · intro h; exact ⟨[], [], by simp [h]⟩
    · rintro ⟨a, b, hab⟩
      rcases List.append_eq_nil.mp (List.append_eq_nil.mp hab.symm).1 with ⟨_, h2⟩
      exact h2
  | cons c rest ih =>
    simp only [containsSub, Bool.or_eq_true]
    constructor
    · rintro (hp | hr)
      · exact ⟨[], (c :: rest).drop needle.length, by simpa using isPrefixOf_decomp hp⟩
      · rcases ih.mp hr with ⟨a, b, hab⟩
        exact ⟨c :: a, b, by simp [hab]⟩
    · rintro ⟨a, b, hab⟩
      cases a with
      | nil =>
        left
        simp only [List.nil_append] at hab
        rw [hab]
        exact List.isPrefixOf_iff_prefix.mpr ⟨b, rfl⟩
      | cons d a' =>
        right
        apply ih.mpr
        simp only [List.cons_append] at hab
        exact ⟨a', b, (List.cons.injEq _ _ _ _ ▸ hab).2⟩

/-! ### Lemmas about the extraction helpers -/

theorem pyIndexE_ok_iff : ∀ (l : List α) (i : Nat) (x : α),
    pyIndexE l i = .ok x ↔ l.get? i = some x := by
  intro l
  induction l with
  | nil => intro i x; cases i <;> simp [pyIndexE]
  | cons a as ih =>
    intro i x
    cases i with
    | zero => simp [pyIndexE]
    | succ n => simpa [pyIndexE] using ih n x

theorem pyIndexE_error_eq : ∀ (l : List α) (i : Nat) (e : PyErr),
    pyIndexE l i = .error e → e = .indexError := by
  intro l
  induction l with
  | nil =>
    intro i e h
    cases i <;> (simp only [pyIndexE, Except.error.injEq] at h; exact h.symm)
  | cons a as ih =>
    intro i e h
    cases i with
    | zero => simp [pyIndexE] at h
    | succ n => exact ih n e h

theorem pyIndexE_oob : ∀ (l : List α) (i : Nat), l.length ≤ i →
    pyIndexE l i = .error .indexError := by
  intro l
  induction l with
  | nil => intro i _; cases i <;> rfl
  | cons a as ih =>
    intro i h
    cases i with
    | zero => simp at h
    | succ n => exact ih n (by simpa using h)

theorem strip_cell_texts_ok_length : ∀ (cells : List Element) (data : List PyStr),
    strip_cell_texts cells = .ok data → data.length = cells.length := by
  intro cells
  induction cells with
  | nil => intro data h; simp [strip_cell_texts] at h; simp [← h]
  | cons c rest ih =>
    intro data h
    simp only [strip_cell_texts] at h
    rcases ht : c.text with _ | t
    · rw [ht] at h; exact absurd h (by simp)
    · rw [ht] at h
      rcases hr : strip_cell_texts rest with e | ts
      · rw [hr] at h; exact absurd h (by simp)
      · rw [hr] at h
        simp only [Except.ok.injEq] at h
        subst h
        simp [ih ts hr]

theorem strip_cell_texts_ok_get : ∀ (cells : List Element) (data : List PyStr),
    strip_cell_texts cells = .ok data → ∀ (i : Nat) (c : Element),
      cells.get? i = some c → ∃ t, c.text = some t ∧ data.get? i = some (pyStrip t) := by
  intro cells
  induction cells with
  | nil => intro data _ i c hc; simp at hc
  | cons c0 rest ih =>
    intro data h i c hc
    simp only [strip_cell_texts] at h
    rcases ht : c0.text with _ | t
    · rw [ht] at h; exact absurd h (by simp)
    · rw [ht] at h
      rcases hr : strip_cell_texts rest with e | ts
      · rw [hr] at h; exact absurd h (by simp)
      · rw [hr] at h
        simp only [Except.ok.injEq] at h
        subst h
        cases i with
        | zero =>
          simp only [List.get?_cons_zero, Option.some.injEq] at hc
          subst hc
          exact ⟨t, ht, by simp⟩
        | succ n =>
          simp only [List.get?_cons_succ] at hc ⊢
          exact ih ts hr n c hc

theorem strip_cell_texts_none : ∀ (cells : List Element),
    (∃ c ∈ cells, c.text = none) → strip_cell_texts cells = .error .attributeError := by
  intro cells
  induction cells with
  | nil => rintro ⟨c, hc, _⟩; simp at hc
  | cons c0 rest ih =>
    rintro ⟨c, hc, htext⟩
    simp only [strip_cell_texts]
    rcases ht : c0.text with _ | t
    · rfl
    · rcases List.mem_cons.mp hc with hc0 | hcr
      · subst hc0; rw [ht] at htext; exact absurd htext (by simp)
      · rw [ih ⟨c, hcr, htext⟩]

theorem strip_cell_texts_all_some : ∀ (cells : List Element),
    (∀ c ∈ cells, c.text ≠ none) →
    ∃ data, strip_cell_texts cells = .ok data ∧ data.length = cells.length := by
  intro cells
  induction cells with
  | nil => intro _; exact ⟨[], rfl, rfl⟩
  | cons c0 rest ih =>
    intro hall
    rcases ht : c0.text with _ | t
    · exact absurd ht (hall c0 (List.mem_cons_self c0 rest))
    · obtain ⟨data, hd, hlen⟩ := ih (fun c hc => hall c (List.mem_cons_of_mem c0 hc))
      refine ⟨pyStrip t :: data, ?_, by simp [hlen]⟩
      simp only [strip_cell_texts, ht, hd]

theorem strip_cell_texts_error_eq : ∀ (cells : List Element) (e : PyErr),
    strip_cell_texts cells = .error e → e = .attributeError := by
  intro cells
  induction cells with
  | nil => intro e h; simp [strip_cell_texts] at h
  | cons c0 rest ih =>
    intro e h
    simp only [strip_cell_texts] at h
    rcases ht : c0.text with _ | t
    · rw [ht] at h; simp only [Except.error.injEq] at h; exact h.symm
    · rw [ht] at h
      rcases hr : strip_cell_texts rest with e' | ts
      · rw [hr] at h
        simp only [Except.error.injEq] at h
        rw [← h]
        exact ih e' hr
      · rw [hr] at h; exact absurd h (by simp)

theorem parse_candidate_row_ok_spec (row : Element) (cv : candidate_votes)
    (h : parse_candidate_row row = .ok cv) :
    ∃ c0 c1 c2 t0 t1 t2,
      row.children.get? 0 = some c0 ∧ c0.text = some t0 ∧ cv.candidate = pyStrip t0 ∧
      row.children.get? 1 = some c1 ∧ c1.text = some t1 ∧ cv.party = pyStrip t1 ∧
      row.children.get? 2 = some c2 ∧ c2.text = some t2 ∧
      pyInt (pyStrip t2) = some cv.votes := by
  rcases hs : strip_cell_texts row.children with e | data
  · simp [parse_candidate_row, hs] at h
  · simp only [parse_candidate_row, hs] at h
    rcases h0 : pyIndexE data 0 with e | cand
    · simp [h0] at h
    · simp only [h0] at h
      rcases h1 : pyIndexE data 1 with e | pty
      · simp [h1] at h
      · simp only [h1] at h
        rcases h2 : pyIndexE data 2 with e | vs
        · simp [h2] at h
        · simp only [h2] at h
          rcases hv : pyInt vs with _ | v
          · simp [hv] at h
          · simp only [hv, Except.ok.injEq] at h
            subst h
            have hlen := strip_cell_texts_ok_length row.children data hs
            have hget := strip_cell_texts_ok_get row.children data hs
            have hg0 := (pyIndexE_ok_iff data 0 cand).mp h0
            have hg1 := (pyIndexE_ok_iff data 1 pty).mp h1
            have hg2 := (pyIndexE_ok_iff data 2 vs).mp h2
            have hd2 : 2 < data.length := by
              rcases List.get?_eq_some.mp hg2 with ⟨hlt, _⟩
              exact hlt
            obtain ⟨c0', hc0'⟩ : ∃ c', row.children.get? 0 = some c' :=
              ⟨row.children.get ⟨0, by omega⟩, List.get?_eq_get (by omega)⟩
            obtain ⟨c1', hc1'⟩ : ∃ c', row.children.get? 1 = some c' :=
              ⟨row.children.get ⟨1, by omega⟩, List.get?_eq_get (by omega)⟩
            obtain ⟨c2', hc2'⟩ : ∃ c', row.children.get? 2 = some c' :=
              ⟨row.children.get ⟨2, by omega⟩, List.get?_eq_get (by omega)⟩
            obtain ⟨t0, ht0, hd0'⟩ := hget 0 c0' hc0'
            obtain ⟨t1, ht1, hd1'⟩ := hget 1 c1' hc1'
            obtain ⟨t2, ht2, hd2'⟩ := hget 2 c2' hc2'
            rw [hg0] at hd0'
            rw [hg1] at hd1'
            rw [hg2] at hd2'
            refine ⟨c0', c1', c2', t0, t1, t2, hc0', ht0, ?_, hc1', ht1, ?_, hc2', ht2, ?_⟩
            · simpa using hd0'
            · simpa using hd1'
            · simp only [Option.some.injEq] at hd2'
              rw [← hd2', hv]

theorem parse_rows_ok_length : ∀ (rows : List Element) (avs : List candidate_votes),
    parse_rows rows = .ok avs → avs.length = rows.length := by
  intro rows
  induction rows with
  | nil => intro avs h; simp only [parse_rows, Except.ok.injEq] at h; simp [← h]
  | cons row rest ih =>
    intro avs h
    rcases hr : parse_candidate_row row with e | cv
    · simp [parse_rows, hr] at h
    · simp only [parse_rows, hr] at h
      rcases hs : parse_rows rest with e | cvs
      · simp [hs] at h
      · simp only [hs, Except.ok.injEq] at h
        subst h
        simp [ih cvs hs]

theorem parse_rows_ok_get : ∀ (rows : List Element) (avs : List candidate_votes),
    parse_rows rows = .ok avs → ∀ (i : Nat) (row : Element), rows.get? i = some row →
      ∃ cv, avs.get? i = some cv ∧ parse_candidate_row row = .ok cv := by
  intro rows
  induction rows with
  | nil => intro avs _ i row hrow; simp at hrow
  | cons r0 rest ih =>
    intro avs h i row hrow
    rcases hr : parse_candidate_row r0 with e | cv
    · simp [parse_rows, hr] at h
    · simp only [parse_rows, hr] at h
      rcases hs : parse_rows rest with e | cvs
      · simp [hs] at h
      · simp only [hs, Except.ok.injEq] at h
        subst h
        cases i with
        | zero =>
          simp only [List.get?_cons_zero, Option.some.injEq] at hrow
          subst hrow
          exact ⟨cv, by simp, hr⟩
        | succ n =>
          simp only [List.get?_cons_succ] at hrow ⊢
          exact ih cvs hs n row hrow

theorem parse_rows_append_error :
    ∀ (pre : List Element) (row : Element) (post : List Element) (e : PyErr),
    (∀ r ∈ pre, ∃ cv, parse_candidate_row r = .ok cv) →
    parse_candidate_row row = .error e →
    parse_rows (pre ++ row :: post) = .error e := by
  intro pre
  induction pre with
  | nil =>
    intro row post e _ hrow
    simp only [List.nil_append, parse_rows, hrow]
  | cons r0 rest ih =>
    intro row post e hpre hrow
    obtain ⟨cv, hcv⟩ := hpre r0 (List.mem_cons_self r0 rest)
    have htail := ih row post e (fun r hr => hpre r (List.mem_cons_of_mem r0 hr)) hrow
    simp only [List.cons_append, parse_rows, hcv, List.append_eq, htail]

theorem parse_candidate_row_error_cases (row : Element) (e : PyErr)
    (h : parse_candidate_row row = .error e) :
    e = .attributeError ∨ e = .indexError ∨ e = .valueError := by
  rcases hs : strip_cell_texts row.children with e' | data
  · simp only [parse_candidate_row, hs, Except.error.injEq] at h
    subst h
    exact Or.inl (strip_cell_texts_error_eq row.children e' hs)
  · simp only [parse_candidate_row, hs] at h
    rcases h0 : pyIndexE data 0 with e' | cand
    · simp only [h0, Except.error.injEq] at h
      subst h
      exact Or.inr (Or.inl (pyIndexE_error_eq data 0 e' h0))
    · simp only [h0] at h
      rcases h1 : pyIndexE data 1 with e' | pty
      · simp only [h1, Except.error.injEq] at h
        subst h
        exact Or.inr (Or.inl (pyIndexE_error_eq data 1 e' h1))
      · simp only [h1] at h
        rcases h2 : pyIndexE data 2 with e' | vs
        · simp only [h2, Except.error.injEq] at h
          subst h
          exact Or.inr (Or.inl (pyIndexE_error_eq data 2 e' h2))
        · simp only [h2] at h
          rcases hv : pyInt vs with _ | v
          · simp only [hv, Except.error.injEq] at h
            subst h
            exact Or.inr (Or.inr rfl)
          · simp [hv] at h

theorem parse_rows_error_cases : ∀ (rows : List Element) (e : PyErr),
    parse_rows rows = .error e →
    e = .attributeError ∨ e = .indexError ∨ e = .valueError := by
  intro rows
  induction rows with
  | nil => intro e h; simp [parse_rows] at h
  | cons row rest ih =>
    intro e h
    rcases hr : parse_candidate_row row with e' | cv
    · simp only [parse_rows, hr, Except.error.injEq] at h
      subst h
      exact parse_candidate_row_error_cases row e' hr
    · simp only [parse_rows, hr] at h
      rcases hs : parse_rows rest with e' | cvs
      · simp only [hs, Except.error.injEq] at h
        subst h
        exact ih e' hs
      · simp [hs] at h

/-! ### Evaluation lemmas for the extractor -/

theorem extract_body_eval (tbl row0 row1 hdr : Element) (rows : List Element)
    (c0 c1 : Element) (r0rest r1rest : List Element) (lbl st s0 : PyStr)
    (restp : List PyStr)
    (hrows : tbl.children = row0 :: row1 :: hdr :: rows)
    (hc0 : row0.children = c0 :: r0rest) (ht0 : c0.text = some lbl)
    (hsplit : pySplit lbl sep_str = s0 :: restp)
    (hc1 : row1.children = c1 :: r1rest) (ht1 : c1.text = some st) :
    extract_body tbl =
      match parse_rows rows with
      | .error e => .error e
      | .ok avs =>
        .ok ⟨pyStrip s0, pyStrip (pyJoin sep_str restp), avs,
          containsSub declared_str st⟩ := by
  simp only [extract_body, hrows, pyIndexE, hc0, ht0, hsplit, hc1, ht1]
  rfl

theorem extract_from_tree_eval (parsed tbl e1 e2 : Element)
    (hk : parsed.children = [tbl, e1, e2]) (htag : tbl.tag = ("table".data)) :
    extract_from_tree parsed = extract_body tbl := by
  simp only [extract_from_tree, hk, htag, pyIndexE]
  simp

theorem extract_body_ne_assert (tbl : Element) :
    extract_body tbl ≠ .error .assertionError := by
  intro h
  simp only [extract_body] at h
  rcases h0 : pyIndexE tbl.children 0 with e | row0
  · simp only [h0, Except.error.injEq] at h
    exact absurd (h ▸ pyIndexE_error_eq tbl.children 0 e h0) (by simp)
  · simp only [h0] at h
    rcases h1 : pyIndexE row0.children 0 with e | c0
    · simp only [h1, Except.error.injEq] at h
      exact absurd (h ▸ pyIndexE_error_eq row0.children 0 e h1) (by simp)
    · simp only [h1] at h
      rcases ht : c0.text with _ | lbl
      · simp only [ht] at h; exact absurd h (by simp)
      · simp only [ht] at h
        rcases hsp : pySplit lbl sep_str with _ | ⟨s0, restp⟩
        · simp only [hsp] at h; exact absurd h (by simp)
        · simp only [hsp] at h
          rcases h2 : pyIndexE tbl.children 1 with e | row1
          · simp only [h2, Except.error.injEq] at h
            exact absurd (h ▸ pyIndexE_error_eq tbl.children 1 e h2) (by simp)
          · simp only [h2] at h
            rcases h3 : pyIndexE row1.children 0 with e | c1
            · simp only [h3, Except.error.injEq] at h
              exact absurd (h ▸ pyIndexE_error_eq row1.children 0 e h3) (by simp)
            · simp only [h3] at h
              rcases ht1 : c1.text with _ | st
              · simp only [ht1] at h; exact absurd h (by simp)
              · simp only [ht1] at h
                rcases hr : parse_rows (tbl.children.drop 3) with e | avs
                · simp only [hr, Except.error.injEq] at h
                  rcases parse_rows_error_cases _ e hr with he | he | he <;>
                    (rw [he] at h; exact absurd h (by simp))
                · simp only [hr] at h; exact absurd h (by simp)

/-! ### Lemmas about the line locator -/

theorem locate_aux_skip : ∀ (pre rest' : List PyStr),
    (∀ l ∈ pre, marker_str.isPrefixOf (pyStrip l) = false) →
    locate_aux (pre ++ rest') false = locate_aux rest' false := by
  intro pre
  induction pre with
  | nil => intro rest' _; rfl
  | cons l0 rest ih =>
    intro rest' hall
    have h0 := hall l0 (List.mem_cons_self l0 rest)
    simp only [List.cons_append, locate_aux, h0, Bool.false_eq_true, if_false]
    exact ih rest' (fun l hl => hall l (List.mem_cons_of_mem l0 hl))

theorem locate_aux_skip_markers : ∀ (mids rest' : List PyStr),
    (∀ l ∈ mids, marker_str.isPrefixOf (pyStrip l) = true) →
    locate_aux (mids ++ rest') true = locate_aux rest' true := by
  intro mids
  induction mids with
  | nil => intro rest' _; rfl
  | cons l0 rest ih =>
    intro rest' hall
    have h0 := hall l0 (List.mem_cons_self l0 rest)
    simp only [List.cons_append, locate_aux, h0, if_true]
    exact ih rest' (fun l hl => hall l (List.mem_cons_of_mem l0 hl))

theorem locate_results_line_no_marker (lines : List PyStr)
    (h : ∀ l ∈ lines, marker_str.isPrefixOf (pyStrip l) = false) :
    locate_results_line lines = [] := by
  have := locate_aux_skip lines [] h
  simpa [locate_results_line] using this

/-! ### Row-failure helpers -/

theorem parse_candidate_row_missing_text (row : Element)
    (h : ∃ c ∈ row.children, c.text = none) :
    parse_candidate_row row = .error .attributeError := by
  simp [parse_candidate_row, strip_cell_texts_none row.children h]

theorem parse_candidate_row_short (row : Element)
    (hall : ∀ c ∈ row.children, c.text ≠ none) (hlen : row.children.length < 3) :
    parse_candidate_row row = .error .indexError := by
  obtain ⟨data, hd, hlen'⟩ := strip_cell_texts_all_some row.children hall
  have hd3 : data.length < 3 := by omega
  rcases data with _ | ⟨a, _ | ⟨b, _ | ⟨c, t⟩⟩⟩
  · simp [parse_candidate_row, hd, pyIndexE]
  · simp [parse_candidate_row, hd, pyIndexE]
  · simp [parse_candidate_row, hd, pyIndexE]
  · simp only [List.length_cons] at hd3; omega

/-- Shared propagation lemma: if the tree has the expected shape, the
label and status cells parse, every row before `row` parses, and `row`
itself raises error `e`, then the whole extraction raises `e`. -/
theorem extract_error_of_row_error
    (parsed tbl e1 e2 row0 row1 hdr c0 c1 row : Element)
    (rows preR postR r0rest r1rest : List Element) (lbl st : PyStr) (e : PyErr)
    (hk : parsed.children = [tbl, e1, e2]) (htag : tbl.tag = ("table".data))
    (hrows : tbl.children = row0 :: row1 :: hdr :: rows)
    (hc0 : row0.children = c0 :: r0rest) (ht0 : c0.text = some lbl)
    (hc1 : row1.children = c1 :: r1rest) (ht1 : c1.text = some st)
    (hdecomp : rows = preR ++ row :: postR)
    (hpre : ∀ r ∈ preR, ∃ cv, parse_candidate_row r = .ok cv)
    (hrow : parse_candidate_row row = .error e) :
    extract_from_tree parsed = .error e := by
  rcases hsp : pySplit lbl sep_str with _ | ⟨s0, restp⟩
  · exact absurd hsp (pySplit_ne_nil lbl sep_str)
  · rw [extract_from_tree_eval parsed tbl e1 e2 hk htag,
      extract_body_eval tbl row0 row1 hdr rows c0 c1 r0rest r1rest lbl st s0 restp
        hrows hc0 ht0 hsp hc1 ht1]
    rw [hdecomp, parse_rows_append_error preR row postR e hpre hrow]

/-! ### Concrete pages used as witnesses and counterexamples -/

/-- A `<td>` cell carrying text. -/
def mk_cell (t : PyStr) : Element := ⟨("td".data), [], [], some t⟩

/-- A `<td>` cell with no text (ElementTree reports its text as `None`). -/
def mk_bare_cell : Element := ⟨("td".data), [], [], none⟩

/-- A `<tr>` row. -/
def mk_row (cells : List Element) : Element := ⟨("tr".data), [], cells, none⟩

/-- A `<table>` element of the given rows. -/
def mk_table (rows : List Element) : Element := ⟨("table".data), [], rows, none⟩

/-- A trailing non-table element. -/
def br_elem : Element := ⟨("br".data), [], [], none⟩

/-- A synthetic container of the expected shape: a `table` of the given
rows followed by two further elements. -/
def mk_page (rows : List Element) : Element :=
  ⟨("div".data), [], [mk_table rows, br_elem, br_elem], none⟩

def s_row0 : Element := mk_row [mk_cell ("Karnataka - Bangalore South".data)]

def s_row1 : Element := mk_row [mk_cell ("Result Declared".data)]

def s_hdr : Element :=
  mk_row [mk_cell ("Candidate".data), mk_cell ("Party".data), mk_cell ("Votes".data)]

def s_cand1 : Element :=
  mk_row [mk_cell ("A. Kumar".data), mk_cell ("PartyX".data), mk_cell ("55000".data)]

def s_cand2 : Element :=
  mk_row [mk_cell ("B. Singh".data), mk_cell ("PartyY".data), mk_cell ("42000".data)]

def sample_rows : List Element := [s_row0, s_row1, s_hdr, s_cand1, s_cand2]

def sample_page : Element := mk_page sample_rows

def sample_result : constituency_results :=
  ⟨("Karnataka".data), ("Bangalore South".data),
   [⟨("A. Kumar".data), ("PartyX".data), 55000⟩,
    ⟨("B. Singh".data), ("PartyY".data), 42000⟩], true⟩


/-! ### Claim theorems -/

/-- C1, counterexample.  The claim says inputs without the marker fail
with `MarkerNotFound` at the Line Locator and processing never reaches
the later stages.  In the code, the locator is a total function that
silently returns the empty line on a marker-free input (first conjunct),
and the pipeline then proceeds through sanitization and parsing and
fails only at the shape-validation `assert` with an untyped
`AssertionError` (second conjunct) — there is no locator-stage error at
all. -/
theorem c1_counterexample :
    locate_results_line [("<html>".data)] = [] ∧
    get_constituency_results [("<html>".data)] = .error .assertionError :=
  ⟨by decide, by decide⟩

/-- C1, amended.  When no stripped line begins with the marker, or when
the marker line is the last line of the stream (so no line follows it),
the lookup does not fail at the Line Locator: the locator returns the
empty line, processing continues past it, and the extraction fails at
shape validation with the untyped `AssertionError` (the empty wrapped
fragment parses to a container with zero children instead of three). -/
theorem c1_amended_empty_line_shape_failure (lines : List PyStr)
    (h : (∀ l ∈ lines, marker_str.isPrefixOf (pyStrip l) = false) ∨
         (∃ pre m, lines = pre ++ [m] ∧
            (∀ l ∈ pre, marker_str.isPrefixOf (pyStrip l) = false) ∧
            marker_str.isPrefixOf (pyStrip m) = true)) :
    get_constituency_results lines = .error .assertionError := by
  have hl : locate_results_line lines = [] := by
    rcases h with hno | ⟨pre, m, rfl, hpre, hm⟩
    · exact locate_results_line_no_marker lines hno
    · unfold locate_results_line
      rw [locate_aux_skip pre [m] hpre]
      simp [locate_aux, hm]
  unfold get_constituency_results
  rw [hl]
  decide

theorem c1_witness :
    get_constituency_results [("<div id=\"div1\">content".data)] = .error .assertionError :=
  c1_amended_empty_line_shape_failure _
    (Or.inr ⟨[], ("<div id=\"div1\">content".data), rfl, by simp, by decide⟩)

/-- C2: for every successfully parsed result, the derived `vote_count`
(`totalVotes`) equals the sum of the `votes` fields of the contained
`candidate_votes` entries; it is a computed property, not a stored
field, so the equality is definitional. -/
theorem c2_vote_count_is_sum (parsed : Element) (res : constituency_results)
    (hok : extract_from_tree parsed = .ok res) :
    res.vote_count = (res.all_candidate_votes.map candidate_votes.votes).sum := rfl

theorem c2_witness :
    sample_result.vote_count =
      (sample_result.all_candidate_votes.map candidate_votes.votes).sum ∧
    sample_result.vote_count = 97000 :=
  ⟨c2_vote_count_is_sum sample_page sample_result (by decide), by decide⟩

/-- C7: after structural parsing, the extraction fails with the shape
error (the untyped `AssertionError` of the two `assert` statements,
the spec's `UnexpectedShape`) exactly when the synthetic container does
not have three immediate children with a `table` first; when both shape
conditions hold, extraction proceeds past shape validation and never
raises that error. -/
theorem c7_shape_assert_iff (parsed : Element) :
    extract_from_tree parsed = .error .assertionError ↔
      ¬(parsed.children.length = 3 ∧
        ∃ tbl, parsed.children.head? = some tbl ∧ tbl.tag = ("table".data)) := by
  constructor
  · intro h
    rintro ⟨hlen, tbl, hhead, htag⟩
    obtain ⟨a, b, c, habc⟩ := List.length_eq_three.mp hlen
    rw [habc] at hhead
    simp only [List.head?_cons, Option.some.injEq] at hhead
    subst hhead
    rw [extract_from_tree_eval parsed a b c habc htag] at h
    exact extract_body_ne_assert a h
  · intro hn
    by_cases hlen : parsed.children.length = 3
    · obtain ⟨a, b, c, habc⟩ := List.length_eq_three.mp hlen
      by_cases htag : a.tag = ("table".data)
      · exact absurd ⟨hlen, a, by simp [habc], htag⟩ hn
      · simp [extract_from_tree, habc, pyIndexE, htag]
    · simp only [extract_from_tree]
      rw [if_neg hlen]

/-- C8, counterexample.  The claim says the locator's output is the
stripped line immediately following the first marker line.  Here the
line immediately after the first marker line itself begins with the
marker; the code re-arms the flag on it and returns the third line
instead, so the output differs from the stripped second line. -/
theorem c8_counterexample :
    locate_results_line
      [("<div id=\"div1\">".data), ("<div id=\"div1\"><table>x".data),
       ("result-data".data)] = ("result-data".data) ∧
    pyStrip ("<div id=\"div1\"><table>x".data) ≠ ("result-data".data) :=
  ⟨by decide, by decide⟩

/-- C8, amended.  The locator strips each line before comparison and
returns, in one forward pass, the stripped first line after the first
marker line that does not itself begin with the marker (marker-prefixed
lines re-arm the flag and are skipped).  When the line immediately
following the marker does not begin with the marker (`mids = []`), this
is exactly the line immediately following the first marker line. -/
theorem c8_amended_first_nonmarker (pre mids post : List PyStr) (m d : PyStr)
    (hpre : ∀ l ∈ pre, marker_str.isPrefixOf (pyStrip l) = false)
    (hm : marker_str.isPrefixOf (pyStrip m) = true)
    (hmids : ∀ l ∈ mids, marker_str.isPrefixOf (pyStrip l) = true)
    (hd : marker_str.isPrefixOf (pyStrip d) = false) :
    locate_results_line (pre ++ m :: (mids ++ d :: post)) = pyStrip d := by
  unfold locate_results_line
  rw [locate_aux_skip pre _ hpre]
  simp only [locate_aux, hm, if_true]
  rw [locate_aux_skip_markers mids _ hmids]
  simp [locate_aux, hd]

theorem c8_witness :
    locate_results_line
      [("junk".data), ("<div id=\"div1\">".data), ("  data line  ".data),
       ("tail".data)] = ("data line".data) :=
  c8_amended_first_nonmarker [("junk".data)] [] [("tail".data)]
    ("<div id=\"div1\">".data) ("  data line  ".data)
    (by decide) (by decide) (by simp) (by decide)

/-- C3: for every successfully parsed table, extraction skips exactly
the first three rows (`result_rows[3:]` after the label, status and
header rows) and produces one `candidate_votes` per remaining row, the
output list being index-aligned with the source rows (order
preservation), where each entry's fields come positionally from the
row's first three cells: candidate = stripped text of cell 0, party =
stripped text of cell 1, votes = the integer parsed from the stripped
text of cell 2. -/
theorem c3_candidate_rows_mapping
    (parsed tbl e1 e2 row0 row1 hdr c0 c1 : Element)
    (rows r0rest r1rest : List Element) (lbl st : PyStr) (res : constituency_results)
    (hk : parsed.children = [tbl, e1, e2]) (htag : tbl.tag = ("table".data))
    (hrows : tbl.children = row0 :: row1 :: hdr :: rows)
    (hc0 : row0.children = c0 :: r0rest) (ht0 : c0.text = some lbl)
    (hc1 : row1.children = c1 :: r1rest) (ht1 : c1.text = some st)
    (hok : extract_from_tree parsed = .ok res) :
    res.all_candidate_votes.length = rows.length ∧
    ∀ (i : Nat) (row : Element) (cv : candidate_votes),
      rows.get? i = some row → res.all_candidate_votes.get? i = some cv →
      ∃ cc0 cc1 cc2 t0 t1 t2,
        row.children.get? 0 = some cc0 ∧ cc0.text = some t0 ∧ cv.candidate = pyStrip t0 ∧
        row.children.get? 1 = some cc1 ∧ cc1.text = some t1 ∧ cv.party = pyStrip t1 ∧
        row.children.get? 2 = some cc2 ∧ cc2.text = some t2 ∧
        pyInt (pyStrip t2) = some cv.votes := by
  rcases hsp : pySplit lbl sep_str with _ | ⟨s0, restp⟩
  · exact absurd hsp (pySplit_ne_nil lbl sep_str)
  rw [extract_from_tree_eval parsed tbl e1 e2 hk htag,
    extract_body_eval tbl row0 row1 hdr rows c0 c1 r0rest r1rest lbl st s0 restp
      hrows hc0 ht0 hsp hc1 ht1] at hok
  rcases hpr : parse_rows rows with e | avs
  · rw [hpr] at hok; exact absurd hok (by simp)
  · rw [hpr] at hok
    simp only [Except.ok.injEq] at hok
    have havs : res.all_candidate_votes = avs := by rw [← hok]
    constructor
    · rw [havs]; exact parse_rows_ok_length rows avs hpr
    · intro i row cv hrow hcv
      rw [havs] at hcv
      obtain ⟨cv', hcv', hok'⟩ := parse_rows_ok_get rows avs hpr i row hrow
      rw [hcv] at hcv'
      obtain rfl := Option.some.inj hcv'
      exact parse_candidate_row_ok_spec row cv hok'

theorem c3_witness : sample_result.all_candidate_votes.length = 2 :=
  ((c3_candidate_rows_mapping sample_page (mk_table sample_rows) br_elem br_elem
      s_row0 s_row1 s_hdr
      (mk_cell ("Karnataka - Bangalore South".data)) (mk_cell ("Result Declared".data))
      [s_cand1, s_cand2] [] [] ("Karnataka - Bangalore South".data)
      ("Result Declared".data) sample_result
      rfl rfl rfl rfl rfl rfl rfl (by decide)).1).trans (by decide)

/-- C4: the row-0 label is split on the first `" - "` occurrence: when
`splitFirst` finds the earliest occurrence, making `lbl = a ++ " - " ++ b`,
the state name is `a` trimmed and the constituency name is `b` trimmed
(`b` is exactly the rejoining, with `" - "`, of all the split parts after
the first, so multi-hyphen constituency names survive). -/
theorem c4_label_splits_on_first_sep
    (parsed tbl e1 e2 row0 row1 hdr c0 c1 : Element)
    (rows r0rest r1rest : List Element) (lbl st a b : PyStr) (res : constituency_results)
    (hk : parsed.children = [tbl, e1, e2]) (htag : tbl.tag = ("table".data))
    (hrows : tbl.children = row0 :: row1 :: hdr :: rows)
    (hc0 : row0.children = c0 :: r0rest) (ht0 : c0.text = some lbl)
    (hc1 : row1.children = c1 :: r1rest) (ht1 : c1.text = some st)
    (hfirst : splitFirst sep_str lbl = some (a, b))
    (hok : extract_from_tree parsed = .ok res) :
    lbl = a ++ sep_str ++ b ∧ res.state = pyStrip a ∧ res.constituency = pyStrip b := by
  have hsep : sep_str ≠ [] := by decide
  have hsplit := splitFirst_some_split sep_str hsep lbl a b hfirst
  rw [extract_from_tree_eval parsed tbl e1 e2 hk htag,
    extract_body_eval tbl row0 row1 hdr rows c0 c1 r0rest r1rest lbl st a
      (pySplit b sep_str) hrows hc0 ht0 hsplit hc1 ht1] at hok
  rcases hpr : parse_rows rows with e | avs
  · rw [hpr] at hok; exact absurd hok (by simp)
  · rw [hpr] at hok
    simp only [Except.ok.injEq] at hok
    refine ⟨splitFirst_decomp sep_str lbl a b hfirst, ?_, ?_⟩
    · rw [← hok]
    · rw [← hok]
      show pyStrip (pyJoin sep_str (pySplit b sep_str)) = pyStrip b
      rw [pyJoin_pySplit' sep_str hsep b]

def mh_row0 : Element := mk_row [mk_cell ("Maharashtra - Mumbai - North".data)]

def mh_row1 : Element := mk_row [mk_cell ("Counting in progress".data)]

def mh_cand : Element :=
  mk_row [mk_cell ("C. Patil".data), mk_cell ("PartyZ".data), mk_cell ("100".data)]

def mh_page : Element := mk_page [mh_row0, mh_row1, s_hdr, mh_cand]

def mh_result : constituency_results :=
  ⟨("Maharashtra".data), ("Mumbai - North".data),
   [⟨("C. Patil".data), ("PartyZ".data), 100⟩], false⟩

theorem c4_witness :
    mh_result.state = pyStrip ("Maharashtra".data) ∧
    mh_result.constituency = pyStrip ("Mumbai - North".data) :=
  (c4_label_splits_on_first_sep mh_page (mk_table [mh_row0, mh_row1, s_hdr, mh_cand])
      br_elem br_elem mh_row0 mh_row1 s_hdr
      (mk_cell ("Maharashtra - Mumbai - North".data)) (mk_cell ("Counting in progress".data))
      [mh_cand] [] [] ("Maharashtra - Mumbai - North".data) ("Counting in progress".data)
      ("Maharashtra".data) ("Mumbai - North".data) mh_result
      rfl rfl rfl rfl rfl rfl rfl (by decide) (by decide)).2

/-- C5: for every parsed page, `declared` is `true` exactly when the
text of the first cell of row 1 contains `"Result Declared"` as a
contiguous, case-sensitive substring; any other content gives
`declared = false`. -/
theorem c5_declared_iff_substring
    (parsed tbl e1 e2 row0 row1 hdr c0 c1 : Element)
    (rows r0rest r1rest : List Element) (lbl st : PyStr) (res : constituency_results)
    (hk : parsed.children = [tbl, e1, e2]) (htag : tbl.tag = ("table".data))
    (hrows : tbl.children = row0 :: row1 :: hdr :: rows)
    (hc0 : row0.children = c0 :: r0rest) (ht0 : c0.text = some lbl)
    (hc1 : row1.children = c1 :: r1rest) (ht1 : c1.text = some st)
    (hok : extract_from_tree parsed = .ok res) :
    res.declared = true ↔ ∃ a b, st = a ++ declared_str ++ b := by
  rcases hsp : pySplit lbl sep_str with _ | ⟨s0, restp⟩
  · exact absurd hsp (pySplit_ne_nil lbl sep_str)
  rw [extract_from_tree_eval parsed tbl e1 e2 hk htag,
    extract_body_eval tbl row0 row1 hdr rows c0 c1 r0rest r1rest lbl st s0 restp
      hrows hc0 ht0 hsp hc1 ht1] at hok
  rcases hpr : parse_rows rows with e | avs
  · rw [hpr] at hok; exact absurd hok (by simp)
  · rw [hpr] at hok
    simp only [Except.ok.injEq] at hok
    have hd : res.declared = containsSub declared_str st := by rw [← hok]
    rw [hd]
    exact containsSub_iff declared_str st

theorem c5_witness : sample_result.declared = true :=
  (c5_declared_iff_substring sample_page (mk_table sample_rows) br_elem br_elem
      s_row0 s_row1 s_hdr
      (mk_cell ("Karnataka - Bangalore South".data)) (mk_cell ("Result Declared".data))
      [s_cand1, s_cand2] [] [] ("Karnataka - Bangalore South".data)
      ("Result Declared".data) sample_result
      rfl rfl rfl rfl rfl rfl rfl (by decide)).mpr ⟨[], [], by decide⟩

def neg_cand : Element :=
  mk_row [mk_cell ("N. Kumar".data), mk_cell ("PartyN".data), mk_cell ("-5".data)]

def neg_page : Element := mk_page [s_row0, s_row1, s_hdr, neg_cand]

def neg_result : constituency_results :=
  ⟨("Karnataka".data), ("Bangalore South".data),
   [⟨("N. Kumar".data), ("PartyN".data), -5⟩], true⟩

/-- C6, counterexample.  The claim says extraction fails with
`InvalidVoteCount` whenever a vote cell is not a valid non-negative
integer.  `"-5"` is not a non-negative integer, yet Python's `int()`
accepts it, so extraction succeeds and returns a result with a negative
vote count instead of failing. -/
theorem c6_counterexample :
    extract_from_tree neg_page = .ok neg_result ∧ neg_result.vote_count < 0 :=
  ⟨by decide, by decide⟩

/-- C6, amended.  A vote cell is parsed with Python's `int()`, which
accepts any optionally-signed base-10 integer literal (including
negative ones); extraction fails — with the untyped `ValueError`
(the spec's `InvalidVoteCount`) and no partial result — exactly when
the stripped cell text is not such a literal.  Here: if every earlier
candidate row parses and the third stripped cell of `row` is not an
`int()` literal, the whole extraction returns that error. -/
theorem c6_amended_int_literal
    (parsed tbl e1 e2 row0 row1 hdr c0 c1 row : Element)
    (rows preR postR r0rest r1rest : List Element) (lbl st : PyStr)
    (data : List PyStr) (v : PyStr)
    (hk : parsed.children = [tbl, e1, e2]) (htag : tbl.tag = ("table".data))
    (hrows : tbl.children = row0 :: row1 :: hdr :: rows)
    (hc0 : row0.children = c0 :: r0rest) (ht0 : c0.text = some lbl)
    (hc1 : row1.children = c1 :: r1rest) (ht1 : c1.text = some st)
    (hdecomp : rows = preR ++ row :: postR)
    (hpre : ∀ r ∈ preR, ∃ cv, parse_candidate_row r = .ok cv)
    (hcells : strip_cell_texts row.children = .ok data)
    (hv : data.get? 2 = some v)
    (hbad : pyInt v = none) :
    extract_from_tree parsed = .error .valueError := by
  have hrow : parse_candidate_row row = .error .valueError := by
    have hd2 : 2 < data.length := by
      rcases List.get?_eq_some.mp hv with ⟨hlt, _⟩
      exact hlt
    obtain ⟨cand, hg0⟩ : ∃ x, data.get? 0 = some x :=
      ⟨data.get ⟨0, by omega⟩, List.get?_eq_get (by omega)⟩
    obtain ⟨pty, hg1⟩ : ∃ x, data.get? 1 = some x :=
      ⟨data.get ⟨1, by omega⟩, List.get?_eq_get (by omega)⟩
    simp only [parse_candidate_row, hcells,
      (pyIndexE_ok_iff data 0 cand).mpr hg0,
      (pyIndexE_ok_iff data 1 pty).mpr hg1,
      (pyIndexE_ok_iff data 2 v).mpr hv, hbad]
  exact extract_error_of_row_error parsed tbl e1 e2 row0 row1 hdr c0 c1 row
    rows preR postR r0rest r1rest lbl st .valueError
    hk htag hrows hc0 ht0 hc1 ht1 hdecomp hpre hrow

def bad_cand : Element :=
  mk_row [mk_cell ("B. Kumar".data), mk_cell ("PartyB".data), mk_cell ("12a".data)]

def bad_page : Element := mk_page [s_row0, s_row1, s_hdr, bad_cand]

theorem c6_witness : extract_from_tree bad_page = .error .valueError :=
  c6_amended_int_literal bad_page (mk_table [s_row0, s_row1, s_hdr, bad_cand])
    br_elem br_elem s_row0 s_row1 s_hdr
    (mk_cell ("Karnataka - Bangalore South".data)) (mk_cell ("Result Declared".data))
    bad_cand [bad_cand] [] [] [] []
    ("Karnataka - Bangalore South".data) ("Result Declared".data)
    [("B. Kumar".data), ("PartyB".data), ("12a".data)] ("12a".data)
    rfl rfl rfl rfl rfl rfl rfl rfl (by simp) (by decide) (by decide) (by decide)

/-- C9: the row loop first strips the text of every cell of the row
(`[c.text.strip() for c in row.getchildren()]`) and then accesses the
first three stripped values by unguarded positional indexing.  Hence,
once extraction reaches a candidate row (the earlier rows parse): a row
any of whose cells carries no text makes `get_constituency_results`
fail with Python's untyped `AttributeError` (`None.strip()`), and a row
with fewer than three cells (all with text) makes it fail with the
untyped `IndexError` — both built-in exceptions outside the spec's
five-error taxonomy, and no result is returned. -/
theorem c9_unguarded_row_access
    (parsed tbl e1 e2 row0 row1 hdr c0 c1 row : Element)
    (rows preR postR r0rest r1rest : List Element) (lbl st : PyStr)
    (hk : parsed.children = [tbl, e1, e2]) (htag : tbl.tag = ("table".data))
    (hrows : tbl.children = row0 :: row1 :: hdr :: rows)
    (hc0 : row0.children = c0 :: r0rest) (ht0 : c0.text = some lbl)
    (hc1 : row1.children = c1 :: r1rest) (ht1 : c1.text = some st)
    (hdecomp : rows = preR ++ row :: postR)
    (hpre : ∀ r ∈ preR, ∃ cv, parse_candidate_row r = .ok cv) :
    ((∃ c ∈ row.children, c.text = none) →
        extract_from_tree parsed = .error .attributeError) ∧
    ((∀ c ∈ row.children, c.text ≠ none) → row.children.length < 3 →
        extract_from_tree parsed = .error .indexError) := by
  constructor
  · intro hnone
    exact extract_error_of_row_error parsed tbl e1 e2 row0 row1 hdr c0 c1 row
      rows preR postR r0rest r1rest lbl st .attributeError
      hk htag hrows hc0 ht0 hc1 ht1 hdecomp hpre
      (parse_candidate_row_missing_text row hnone)
  · intro hall hlen
    exact extract_error_of_row_error parsed tbl e1 e2 row0 row1 hdr c0 c1 row
      rows preR postR r0rest r1rest lbl st .indexError
      hk htag hrows hc0 ht0 hc1 ht1 hdecomp hpre
      (parse_candidate_row_short row hall hlen)

def short_cand : Element := mk_row [mk_cell ("S. One".data), mk_cell ("PartyS".data)]

def short_page : Element := mk_page [s_row0, s_row1, s_hdr, short_cand]

theorem c9_witness : extract_from_tree short_page = .error .indexError :=
  (c9_unguarded_row_access short_page (mk_table [s_row0, s_row1, s_hdr, short_cand])
      br_elem br_elem s_row0 s_row1 s_hdr
      (mk_cell ("Karnataka - Bangalore South".data)) (mk_cell ("Result Declared".data))
      short_cand [short_cand] [] [] [] []
      ("Karnataka - Bangalore South".data) ("Result Declared".data)
      rfl rfl rfl rfl rfl rfl rfl rfl (by simp)).2 (by decide) (by decide)

/-- C10: when the row-0 label contains no `" - "` separator, extraction
still succeeds (given the candidate rows parse): the state name is the
whole trimmed label and the constituency name is the empty string; no
error is raised for a separator-free label. -/
theorem c10_label_without_separator
    (parsed tbl e1 e2 row0 row1 hdr c0 c1 : Element)
    (rows r0rest r1rest : List Element) (lbl st : PyStr) (avs : List candidate_votes)
    (hk : parsed.children = [tbl, e1, e2]) (htag : tbl.tag = ("table".data))
    (hrows : tbl.children = row0 :: row1 :: hdr :: rows)
    (hc0 : row0.children = c0 :: r0rest) (ht0 : c0.text = some lbl)
    (hc1 : row1.children = c1 :: r1rest) (ht1 : c1.text = some st)
    (hnosep : splitFirst sep_str lbl = none)
    (hrowsok : parse_rows rows = .ok avs) :
    extract_from_tree parsed =
      .ok ⟨pyStrip lbl, [], avs, containsSub declared_str st⟩ := by
  have hsep : sep_str ≠ [] := by decide
  have hsplit := splitFirst_none_split sep_str hsep lbl hnosep
  rw [extract_from_tree_eval parsed tbl e1 e2 hk htag,
    extract_body_eval tbl row0 row1 hdr rows c0 c1 r0rest r1rest lbl st lbl []
      hrows hc0 ht0 hsplit hc1 ht1, hrowsok]
  rfl

def delhi_row0 : Element := mk_row [mk_cell ("Delhi".data)]

def delhi_cand : Element :=
  mk_row [mk_cell ("D. Person".data), mk_cell ("PartyD".data), mk_cell ("7".data)]

def delhi_page : Element := mk_page [delhi_row0, s_row1, s_hdr, delhi_cand]

theorem c10_witness :
    extract_from_tree delhi_page =
      .ok ⟨("Delhi".data), [], [⟨("D. Person".data), ("PartyD".data), 7⟩], true⟩ := by
  have h := c10_label_without_separator delhi_page
    (mk_table [delhi_row0, s_row1, s_hdr, delhi_cand]) br_elem br_elem
    delhi_row0 s_row1 s_hdr (mk_cell ("Delhi".data)) (mk_cell ("Result Declared".data))
    [delhi_cand] [] [] ("Delhi".data) ("Result Declared".data)
    [⟨("D. Person".data), ("PartyD".data), 7⟩]
    rfl rfl rfl rfl rfl rfl rfl (by decide) (by decide)
  rw [h]
  decide
